import Mathlib

/-!
Verification of the openGauss rust connector's SHA-256 challenge-response
authentication core (`postgres-protocol/src/authentication/sha256.rs`).

The source is embedded shallowly: bytes are `Nat` values below 256, byte
strings are `List Nat`, 32-bit words are `Nat` reduced modulo `2^32`, and a
Rust function that can panic (`Option::unwrap` on `None`, out-of-bounds
indexing) is embedded as a function into `RustOutcome`, whose `panicked`
constructor models an aborted call that produces no value.

The external cryptographic primitives the source calls (`ring`'s
HMAC-SHA256 and PBKDF2-HMAC-SHA1, `rust-crypto`'s SHA-256) are modelled by
executable implementations of their standard definitions (FIPS 180-4 for
SHA-1/SHA-256, RFC 2104 for HMAC, RFC 2898 for PBKDF2).
-/

namespace Sha256Auth

/-- Outcome of a Rust call: either a value, or an aborted (panicked) call.
The embedded functions have no error channel, matching the source whose
only failure mode is a panic. -/
inductive RustOutcome (α : Type) where
  | ok (val : α)
  | panicked
deriving DecidableEq, Repr

/-! ### 32-bit word arithmetic over `Nat` -/

/-- Reduce modulo `2^32`: the wrap-around of `u32` arithmetic. -/
def m32 (x : Nat) : Nat := x % 4294967296

/-- Right-rotate a 32-bit word by `n` places. -/
def rotr32 (n x : Nat) : Nat := m32 ((x >>> n) ||| (x <<< (32 - n)))

/-- Left-rotate a 32-bit word by `n` places. -/
def rotl32 (n x : Nat) : Nat := m32 ((x <<< n) ||| (x >>> (32 - n)))

/-- Bitwise complement of a 32-bit word. -/
def compl32 (x : Nat) : Nat := x ^^^ 4294967295

/-- Big-endian 4-byte encoding of a 32-bit value. -/
def be32 (n : Nat) : List Nat :=
  [(n >>> 24) &&& 255, (n >>> 16) &&& 255, (n >>> 8) &&& 255, n &&& 255]

/-- Big-endian 8-byte encoding of a 64-bit value. -/
def be64 (n : Nat) : List Nat :=
  [(n >>> 56) &&& 255, (n >>> 48) &&& 255, (n >>> 40) &&& 255, (n >>> 32) &&& 255,
   (n >>> 24) &&& 255, (n >>> 16) &&& 255, (n >>> 8) &&& 255, n &&& 255]

/-- Pack a byte list into big-endian 32-bit words, four bytes per word. -/
def wordsOfBytes : List Nat → List Nat
  | a :: b :: c :: d :: rest =>
      (a <<< 24 ||| b <<< 16 ||| c <<< 8 ||| d) :: wordsOfBytes rest
  | _ => []

/-- Split a byte list into 64-byte blocks, with a fuel argument bounding
the number of blocks (each non-empty step consumes at least one byte, so
the list's length is always enough fuel). -/
def toBlocksAux : Nat → List Nat → List (List Nat)
  | 0, _ => []
  | _, [] => []
  | fuel + 1, x :: rest => ((x :: rest).take 64) :: toBlocksAux fuel ((x :: rest).drop 64)

/-- Split a byte list into 64-byte blocks. -/
def toBlocks (l : List Nat) : List (List Nat) := toBlocksAux l.length l

/-- Iterate a function `n` times. -/
def iterateN (f : α → α) : Nat → α → α
  | 0, x => x
  | n + 1, x => iterateN f n (f x)

/-- Merkle–Damgård padding shared by SHA-1 and SHA-256: append `128`, zero
bytes to reach 56 mod 64, then the bit length as 8 big-endian bytes. -/
def mdPad (msg : List Nat) : List Nat :=
  msg ++ 128 :: List.replicate ((119 - msg.length % 64) % 64) 0 ++ be64 (msg.length * 8)

/-! ### SHA-256 (FIPS 180-4), modelling `crypto::sha2::Sha256` -/

/-- The eight 32-bit working variables of SHA-256. -/
structure Sha256State where
  a : Nat
  b : Nat
  c : Nat
  d : Nat
  e : Nat
  f : Nat
  g : Nat
  h : Nat
deriving DecidableEq, Repr

/-- SHA-256 initial hash value. -/
def sha256Init : Sha256State :=
  ⟨1779033703, 3144134277, 1013904242, 2773480762,
   1359893119, 2600822924, 528734635, 1541459225⟩

/-- SHA-256 round constants. -/
def K256 : List Nat :=
  [1116352408, 1899447441, 3049323471, 3921009573, 961987163, 1508970993,
   2453635748, 2870763221, 3624381080, 310598401, 607225278, 1426881987,
   1925078388, 2162078206, 2614888103, 3248222580, 3835390401, 4022224774,
   264347078, 604807628, 770255983, 1249150122, 1555081692, 1996064986,
   2554220882, 2821834349, 2952996808, 3210313671, 3336571891, 3584528711,
   113926993, 338241895, 666307205, 773529912, 1294757372, 1396182291,
   1695183700, 1986661051, 2177026350, 2456956037, 2730485921, 2820302411,
   3259730800, 3345764771, 3516065817, 3600352804, 4094571909, 275423344,
   430227734, 506948616, 659060556, 883997877, 958139571, 1322822218,
   1537002063, 1747873779, 1955562222, 2024104815, 2227730452, 2361852424,
   2428436474, 2756734187, 3204031479, 3329325298]

/-- SHA-256 message-schedule step: append the next word `σ₁(w[t-2]) + w[t-7]
+ σ₀(w[t-15]) + w[t-16]` to the schedule built so far. -/
def sha256ExtendStep (ws : List Nat) : List Nat :=
  let n := ws.length
  ws ++ [m32 ((rotr32 17 (ws.getD (n - 2) 0) ^^^ rotr32 19 (ws.getD (n - 2) 0) ^^^
               (ws.getD (n - 2) 0 >>> 10)) +
              ws.getD (n - 7) 0 +
              (rotr32 7 (ws.getD (n - 15) 0) ^^^ rotr32 18 (ws.getD (n - 15) 0) ^^^
               (ws.getD (n - 15) 0 >>> 3)) +
              ws.getD (n - 16) 0)]

/-- One SHA-256 compression round for round constant `k` and schedule word `w`. -/
def sha256Round (st : Sha256State) (kw : Nat × Nat) : Sha256State :=
  let s1 := rotr32 6 st.e ^^^ rotr32 11 st.e ^^^ rotr32 25 st.e
  let ch := (st.e &&& st.f) ^^^ (compl32 st.e &&& st.g)
  let t1 := m32 (st.h + s1 + ch + kw.1 + kw.2)
  let s0 := rotr32 2 st.a ^^^ rotr32 13 st.a ^^^ rotr32 22 st.a
  let mj := (st.a &&& st.b) ^^^ (st.a &&& st.c) ^^^ (st.b &&& st.c)
  let t2 := m32 (s0 + mj)
  ⟨m32 (t1 + t2), st.a, st.b, st.c, m32 (st.d + t1), st.e, st.f, st.g⟩

/-- Process one 64-byte block. -/
def sha256Compress (st : Sha256State) (block : List Nat) : Sha256State :=
  let ws := iterateN sha256ExtendStep 48 (wordsOfBytes block)
  let t := (K256.zip ws).foldl sha256Round st
  ⟨m32 (st.a + t.a), m32 (st.b + t.b), m32 (st.c + t.c), m32 (st.d + t.d),
   m32 (st.e + t.e), m32 (st.f + t.f), m32 (st.g + t.g), m32 (st.h + t.h)⟩

/-- Serialise the final SHA-256 state as 32 big-endian bytes. -/
def sha256Digest (st : Sha256State) : List Nat :=
  be32 st.a ++ be32 st.b ++ be32 st.c ++ be32 st.d ++
  be32 st.e ++ be32 st.f ++ be32 st.g ++ be32 st.h

/-- SHA-256 digest of a byte string, as 32 bytes. -/
def sha256 (msg : List Nat) : List Nat :=
  sha256Digest ((toBlocks (mdPad msg)).foldl sha256Compress sha256Init)

/-! ### SHA-1 (FIPS 180-4), the PRF underlying `ring`'s PBKDF2_HMAC_SHA1 -/

/-- The five 32-bit working variables of SHA-1. -/
structure Sha1State where
  a : Nat
  b : Nat
  c : Nat
  d : Nat
  e : Nat
deriving DecidableEq, Repr

/-- SHA-1 initial hash value. -/
def sha1Init : Sha1State := ⟨1732584193, 4023233417, 2562383102, 271733878, 3285377520⟩

/-- SHA-1 round function: choice, parity, majority, parity by round index. -/
def sha1F (i b c d : Nat) : Nat :=
  if i < 20 then (b &&& c) ||| (compl32 b &&& d)
  else if i < 40 then b ^^^ c ^^^ d
  else if i < 60 then (b &&& c) ||| (b &&& d) ||| (c &&& d)
  else b ^^^ c ^^^ d

/-- SHA-1 round constant by round index. -/
def sha1K (i : Nat) : Nat :=
  if i < 20 then 1518500249
  else if i < 40 then 1859775393
  else if i < 60 then 2400959708
  else 3395469782

/-- SHA-1 message-schedule step: append `rotl1(w[t-3] ^ w[t-8] ^ w[t-14] ^ w[t-16])`. -/
def sha1ExtendStep (ws : List Nat) : List Nat :=
  let n := ws.length
  ws ++ [rotl32 1 (ws.getD (n - 3) 0 ^^^ ws.getD (n - 8) 0 ^^^
                   ws.getD (n - 14) 0 ^^^ ws.getD (n - 16) 0)]

/-- One SHA-1 compression round for round index `i` and schedule word `w`. -/
def sha1Round (st : Sha1State) (iw : Nat × Nat) : Sha1State :=
  let t := m32 (rotl32 5 st.a + sha1F iw.1 st.b st.c st.d + st.e + sha1K iw.1 + iw.2)
  ⟨t, st.a, rotl32 30 st.b, st.c, st.d⟩

/-- Process one 64-byte block. -/
def sha1Compress (st : Sha1State) (block : List Nat) : Sha1State :=
  let ws := iterateN sha1ExtendStep 64 (wordsOfBytes block)
  let t := ((List.range 80).zip ws).foldl sha1Round st
  ⟨m32 (st.a + t.a), m32 (st.b + t.b), m32 (st.c + t.c), m32 (st.d + t.d), m32 (st.e + t.e)⟩

/-- Serialise the final SHA-1 state as 20 big-endian bytes. -/
def sha1Digest (st : Sha1State) : List Nat :=
  be32 st.a ++ be32 st.b ++ be32 st.c ++ be32 st.d ++ be32 st.e

/-- SHA-1 digest of a byte string, as 20 bytes. -/
def sha1 (msg : List Nat) : List Nat :=
  sha1Digest ((toBlocks (mdPad msg)).foldl sha1Compress sha1Init)

/-! ### HMAC (RFC 2104) and PBKDF2 (RFC 2898) -/

/-- HMAC with the given hash function and a 64-byte block size. -/
def hmacGeneric (hash : List Nat → List Nat) (key msg : List Nat) : List Nat :=
  let k0 := if 64 < key.length then hash key else key
  let kp := k0 ++ List.replicate (64 - k0.length) 0
  hash ((kp.map (· ^^^ 92)) ++ hash ((kp.map (· ^^^ 54)) ++ msg))

/-- HMAC-SHA256, modelling `ring::hmac` with `HMAC_SHA256`. -/
def hmacSha256 (key msg : List Nat) : List Nat := hmacGeneric sha256 key msg

/-- HMAC-SHA1, the PRF of `ring`'s `PBKDF2_HMAC_SHA1`. -/
def hmacSha1 (key msg : List Nat) : List Nat := hmacGeneric sha1 key msg

/-- The XOR-accumulation loop of one PBKDF2 block: `n` further PRF
iterations folded into the accumulator. -/
def pbkdf2Iter (password : List Nat) : Nat → List Nat → List Nat → List Nat
  | 0, _, acc => acc
  | n + 1, u, acc =>
      let u2 := hmacSha1 password u
      pbkdf2Iter password n u2 (List.zipWith (· ^^^ ·) acc u2)

/-- Block `i` of PBKDF2-HMAC-SHA1: `U₁ ^ U₂ ^ ... ^ U_c` with
`U₁ = PRF(password, salt ‖ INT(i))`. -/
def pbkdf2Block (password salt : List Nat) (c i : Nat) : List Nat :=
  let u1 := hmacSha1 password (salt ++ be32 i)
  pbkdf2Iter password (c - 1) u1 u1

/-- PBKDF2 with HMAC-SHA1 as PRF, modelling `ring::pbkdf2::derive` with
`PBKDF2_HMAC_SHA1`: concatenate blocks and truncate to `dkLen` bytes. -/
def pbkdf2HmacSha1 (password salt : List Nat) (c dkLen : Nat) : List Nat :=
  (((List.range ((dkLen + 19) / 20)).map (fun j => pbkdf2Block password salt c (j + 1))).flatten).take dkLen

/-! ### Embedding of `postgres-protocol/src/authentication/sha256.rs` -/

/-- The lazily initialised `HEX_MAP` hash map of the source: ASCII codes of
`0`-`9`, `A`-`F` and `a`-`f` mapped to their hex value; any other byte is
absent (`HashMap::get` returns `None`). Written as the chain of the 22
inserted entries. -/
def HEX_MAP (b : Nat) : Option Nat :=
  if b = 48 then some 0 else if b = 49 then some 1
  else if b = 50 then some 2 else if b = 51 then some 3
  else if b = 52 then some 4 else if b = 53 then some 5
  else if b = 54 then some 6 else if b = 55 then some 7
  else if b = 56 then some 8 else if b = 57 then some 9
  else if b = 65 then some 10 else if b = 66 then some 11
  else if b = 67 then some 12 else if b = 68 then some 13
  else if b = 69 then some 14 else if b = 70 then some 15
  else if b = 97 then some 10 else if b = 98 then some 11
  else if b = 99 then some 12 else if b = 100 then some 13
  else if b = 101 then some 14 else if b = 102 then some 15
  else none

/-- The `LOOKUP_CHAR` table of the source: hex value to lowercase ASCII digit. -/
def LOOKUP_CHAR : List Nat :=
  [48, 49, 50, 51, 52, 53, 54, 55, 56, 57, 97, 98, 99, 100, 101, 102]

/-- Function `bytes_to_hex` of the source: each byte becomes
`LOOKUP_CHAR[b >> 4]` then `LOOKUP_CHAR[b & 15]`, in input order (the
source loop inserts the two characters of byte `i` at positions `2*i` and
`2*i + 1` of the growing vector, which appends them in this order). -/
def bytes_to_hex : List Nat → List Nat
  | [] => []
  | x :: rest =>
      LOOKUP_CHAR.getD (x >>> 4) 0 :: LOOKUP_CHAR.getD (x &&& 15) 0 :: bytes_to_hex rest

/-- Function `xor_between_password` of the source: the loop writes
`password1[i] ^ password2[i]` for `i` in `0..length`; indexing past the end
of either slice panics. Translated as a recursion consuming one element of
each list per remaining count. -/
def xor_between_password (password1 password2 : List Nat) (length : Nat) :
    RustOutcome (List Nat) :=
  match length, password1, password2 with
  | 0, _, _ => .ok []
  | n + 1, p1 :: r1, p2 :: r2 =>
      match xor_between_password r1 r2 n with
      | .ok r => .ok ((p1 ^^^ p2) :: r)
      | .panicked => .panicked
  | _ + 1, _, _ => .panicked
termination_by structural length

/-- Function `get_key_from_hmac` of the source: `ring::hmac::sign` with
`HMAC_SHA256`; the returned `Tag` is its 32 digest bytes. -/
def get_key_from_hmac (key data : List Nat) : List Nat := hmacSha256 key data

/-- The ASCII bytes of the string literal `Client Key`
(`"Client Key".as_bytes()` in the source, spec §4.2 step 3). -/
def clientKeyMsg : List Nat := [67, 108, 105, 101, 110, 116, 32, 75, 101, 121]

/-- Function `to_hex_byte` of the source: the loop runs `i` over `0..len/2`
(integer division, so a trailing odd character is never read), decoding the
pair at `2*i, 2*i + 1` as `(HEX_MAP[hi].unwrap() << 4) | HEX_MAP[lo].unwrap()`;
the `unwrap` on a byte absent from `HEX_MAP` panics. Translated as a
recursion consuming one pair per step; a leftover single element is the
unread trailing character. -/
def to_hex_byte : List Nat → RustOutcome (List Nat)
  | a :: b :: rest =>
      match HEX_MAP a, HEX_MAP b with
      | some hi, some lo =>
          match to_hex_byte rest with
          | .ok r => .ok ((hi <<< 4 ||| lo) :: r)
          | .panicked => .panicked
      | _, _ => .panicked
  | _ => .ok []

/-- Modelled from the spec: `AuthenticationSha256PasswordBody` lives in
`postgres-protocol/src/message/backend.rs`, which is not among the provided
sources; per the spec's `AuthChallenge` `Sha256Password` variant it carries
a `random64code` of 64 ASCII-hex bytes, a `token` of ASCII-hex bytes
(the spec's data model says 16 ASCII-hex chars, while the source test
constructs the body from a fixed 8-byte array — both even lengths), and a
32-bit `server_iteration` count (the accessors of the same names return
these fields). Lean lists carry no length, so the fixed sizes are imposed
as hypotheses of the theorems: every realizable body has a 64-byte salt
and an even-length token. -/
structure AuthenticationSha256PasswordBody where
  random64code : List Nat
  token : List Nat
  server_iteration : Nat
deriving DecidableEq, Repr

/-- Function `rfc5802_algorithm` of the source, line for line: decode the salt,
derive `salted_password` by PBKDF2-HMAC-SHA1 (where
`NonZeroU32::new(server_iteration).unwrap()` panics on a zero count),
compute `client_key`, `stored_key`, decode the token, sign it with
`stored_key`, XOR with `client_key` over `client_key.len()` bytes, and
hex-encode the result. -/
def rfc5802_algorithm (password : List Nat) (body : AuthenticationSha256PasswordBody) :
    RustOutcome (List Nat) :=
  match to_hex_byte body.random64code with
  | .panicked => .panicked
  | .ok salt =>
    if body.server_iteration = 0 then .panicked
    else
      let salted_password := pbkdf2HmacSha1 password salt body.server_iteration 32
      let client_key := get_key_from_hmac salted_password clientKeyMsg
      let stored_key := sha256 client_key
      match to_hex_byte body.token with
      | .panicked => .panicked
      | .ok tokenbyte =>
        let hmac_result := get_key_from_hmac stored_key tokenbyte
        match xor_between_password hmac_result client_key client_key.length with
        | .panicked => .panicked
        | .ok h => .ok (bytes_to_hex h)

/-! ### The spec's pipeline, stated in the spec's own words

These definitions follow the specification text (`HexCodec` in §4.1, the
`ChallengeResponder.respond` pipeline in §4.2), to be compared with the
source embedding above. -/

/-- Spec §4.1: the value of one ASCII hex digit, accepting `0-9A-Fa-f`;
any other character is invalid (`MalformedHex`). -/
def hexDigitValue (b : Nat) : Option Nat :=
  if 48 ≤ b ∧ b ≤ 57 then some (b - 48)
  else if 65 ≤ b ∧ b ≤ 70 then some (b - 55)
  else if 97 ≤ b ∧ b ≤ 102 then some (b - 87)
  else none

/-- Spec §4.1 `HexCodec.decode`: every adjacent pair of hex digits becomes
one byte, high nibble first; the input length must be even and every
character valid, otherwise the operation fails. -/
def hexDecodeSpec : List Nat → Option (List Nat)
  | [] => some []
  | [_] => none
  | a :: b :: rest => do
      let hi ← hexDigitValue a
      let lo ← hexDigitValue b
      let r ← hexDecodeSpec rest
      pure ((16 * hi + lo) :: r)

/-- Spec §4.1: the lowercase ASCII hex digit of a nibble. -/
def nibbleChar (n : Nat) : Nat := if n < 10 then 48 + n else 87 + n

/-- Spec §4.1 `HexCodec.encode`: each byte becomes two lowercase hex
digits, high nibble first. -/
def hexEncodeSpec : List Nat → List Nat
  | [] => []
  | x :: rest => nibbleChar (x / 16) :: nibbleChar (x % 16) :: hexEncodeSpec rest

/-- Spec §4.2 `ChallengeResponder.respond`, step by step: decode the salt;
require a non-zero iteration count (zero is a construction error); derive
the 32-byte `salted_password` with PBKDF2-HMAC-SHA1; `client_key` =
HMAC-SHA256 of the string `Client Key` under `salted_password`;
`stored_key` = SHA256 of `client_key`; decode the token; `signature` =
HMAC-SHA256 of the decoded token under `stored_key`; XOR `signature` with
`client_key` over `0..len(client_key)`; hex-encode the result. -/
def respondSpec (password salt_hex token_hex : List Nat) (iterations : Nat) :
    Option (List Nat) :=
  match hexDecodeSpec salt_hex with
  | none => none
  | some salt =>
    if iterations = 0 then none
    else
      let salted_password := pbkdf2HmacSha1 password salt iterations 32
      let client_key := hmacSha256 salted_password clientKeyMsg
      let stored_key := sha256 client_key
      match hexDecodeSpec token_hex with
      | none => none
      | some token =>
        let signature := hmacSha256 stored_key token
        let xored := (List.range client_key.length).map
          (fun i => signature.getD i 0 ^^^ client_key.getD i 0)
        some (hexEncodeSpec xored)

/-! ### Basic lemmas about the hex codec -/

/-- Induction on a list two elements at a time, following the pair
structure of the hex decoder. -/
theorem hexPairInduction {P : List Nat → Prop} (h0 : P []) (h1 : ∀ a, P [a])
    (h2 : ∀ a b l, P l → P (a :: b :: l)) : ∀ l, P l
  | [] => h0
  | [a] => h1 a
  | a :: b :: l => h2 a b l (hexPairInduction h0 h1 h2 l)

set_option maxHeartbeats 2000000 in
/-- The source's `HEX_MAP` hash map computes exactly the spec's hex-digit
value function. -/
theorem hexMap_eq_hexDigitValue (b : Nat) : HEX_MAP b = hexDigitValue b := by
  rcases Nat.lt_or_ge b 103 with hb | hb
  · interval_cases b <;> decide
  · unfold HEX_MAP hexDigitValue
    rw [if_neg (show ¬b = 48 by omega), if_neg (show ¬b = 49 by omega),
        if_neg (show ¬b = 50 by omega), if_neg (show ¬b = 51 by omega),
        if_neg (show ¬b = 52 by omega), if_neg (show ¬b = 53 by omega),
        if_neg (show ¬b = 54 by omega), if_neg (show ¬b = 55 by omega),
        if_neg (show ¬b = 56 by omega), if_neg (show ¬b = 57 by omega),
        if_neg (show ¬b = 65 by omega), if_neg (show ¬b = 66 by omega),
        if_neg (show ¬b = 67 by omega), if_neg (show ¬b = 68 by omega),
        if_neg (show ¬b = 69 by omega), if_neg (show ¬b = 70 by omega),
        if_neg (show ¬b = 97 by omega), if_neg (show ¬b = 98 by omega),
        if_neg (show ¬b = 99 by omega), if_neg (show ¬b = 100 by omega),
        if_neg (show ¬b = 101 by omega), if_neg (show ¬b = 102 by omega),
        if_neg (show ¬(48 ≤ b ∧ b ≤ 57) by omega),
        if_neg (show ¬(65 ≤ b ∧ b ≤ 70) by omega),
        if_neg (show ¬(97 ≤ b ∧ b ≤ 102) by omega)]

/-- A defined hex-digit value is a nibble. -/
theorem hexDigitValue_lt (b v : Nat) (h : hexDigitValue b = some v) : v < 16 := by
  unfold hexDigitValue at h
  split_ifs at h <;> (injection h with h; omega)

/-- Merging two nibbles by shift-or is the spec's `16 * hi + lo`, and the
result is a byte. -/
theorem nibble_merge (hi lo : Nat) (hhi : hi < 16) (hlo : lo < 16) :
    hi <<< 4 ||| lo = 16 * hi + lo ∧ 16 * hi + lo < 256 := by
  revert hlo; revert lo
  exact (by decide : ∀ hi, hi < 16 → ∀ lo, lo < 16 →
    hi <<< 4 ||| lo = 16 * hi + lo ∧ 16 * hi + lo < 256) hi hhi

/-- On an even-length input of valid hex digits, the source decoder and the
spec decoder succeed with the same bytes. -/
theorem to_hex_byte_eq_hexDecodeSpec :
    ∀ l : List Nat, l.length % 2 = 0 → (∀ b ∈ l, (HEX_MAP b).isSome) →
      ∃ v, hexDecodeSpec l = some v ∧ to_hex_byte l = .ok v := by
  refine hexPairInduction ?_ ?_ ?_
  · intro _ _
    exact ⟨[], rfl, rfl⟩
  · intro a hlen _
    simp at hlen
  · intro a b l ih hlen hvalid
    have hla : (HEX_MAP a).isSome := hvalid a (by simp)
    have hlb : (HEX_MAP b).isSome := hvalid b (by simp)
    obtain ⟨hi, hha⟩ := Option.isSome_iff_exists.mp hla
    obtain ⟨lo, hhb⟩ := Option.isSome_iff_exists.mp hlb
    have hlen2 : l.length % 2 = 0 := by
      simp only [List.length_cons] at hlen
      omega
    obtain ⟨v, hv1, hv2⟩ := ih hlen2 (fun x hx => hvalid x (by simp [hx]))
    have hhi16 : hi < 16 := hexDigitValue_lt a hi (hexMap_eq_hexDigitValue a ▸ hha)
    have hlo16 : lo < 16 := hexDigitValue_lt b lo (hexMap_eq_hexDigitValue b ▸ hhb)
    refine ⟨(16 * hi + lo) :: v, ?_, ?_⟩
    · unfold hexDecodeSpec
      rw [← hexMap_eq_hexDigitValue a, ← hexMap_eq_hexDigitValue b, hha, hhb]
      simp [hv1]
    · unfold to_hex_byte
      rw [hha, hhb, hv2]
      show RustOutcome.ok ((hi <<< 4 ||| lo) :: v) = RustOutcome.ok ((16 * hi + lo) :: v)
      rw [(nibble_merge hi lo hhi16 hlo16).1]

/-- The decoder's output always has half the input's length (rounded
down), whenever it does not panic. -/
theorem to_hex_byte_ok_length :
    ∀ l v : List Nat, to_hex_byte l = .ok v → v.length = l.length / 2 := by
  refine hexPairInduction ?_ ?_ ?_
  · intro v h
    unfold to_hex_byte at h
    injection h with h
    simp [← h]
  · intro a v h
    unfold to_hex_byte at h
    injection h with h
    simp [← h]
  · intro a b l ih v h
    unfold to_hex_byte at h
    rcases hha : HEX_MAP a with _ | hi <;> rw [hha] at h
    · exact absurd h (by simp)
    rcases hhb : HEX_MAP b with _ | lo <;> rw [hhb] at h
    · exact absurd h (by simp)
    rcases hr : to_hex_byte l with r | _ <;> rw [hr] at h
    · injection h with h
      have := ih r hr
      simp only [← h, List.length_cons]
      omega
    · exact absurd h (by simp)

/-- Every byte produced by the decoder is below 256. -/
theorem to_hex_byte_ok_lt256 :
    ∀ l v : List Nat, to_hex_byte l = .ok v → ∀ x ∈ v, x < 256 := by
  refine hexPairInduction ?_ ?_ ?_
  · intro v h
    unfold to_hex_byte at h
    injection h with h
    simp [← h]
  · intro a v h
    unfold to_hex_byte at h
    injection h with h
    simp [← h]
  · intro a b l ih v h
    unfold to_hex_byte at h
    rcases hha : HEX_MAP a with _ | hi <;> rw [hha] at h
    · exact absurd h (by simp)
    rcases hhb : HEX_MAP b with _ | lo <;> rw [hhb] at h
    · exact absurd h (by simp)
    rcases hr : to_hex_byte l with r | _ <;> rw [hr] at h
    · injection h with h
      have hhi16 : hi < 16 := hexDigitValue_lt a hi (hexMap_eq_hexDigitValue a ▸ hha)
      have hlo16 : lo < 16 := hexDigitValue_lt b lo (hexMap_eq_hexDigitValue b ▸ hhb)
      intro x hx
      rw [← h] at hx
      rcases List.mem_cons.mp hx with hx | hx
      · rw [hx, (nibble_merge hi lo hhi16 hlo16).1]
        exact (nibble_merge hi lo hhi16 hlo16).2
      · exact ih r hr x hx
    · exact absurd h (by simp)

/-- On an odd-length input the decoder never reads the final character:
it behaves exactly as on the input with the last element removed. -/
theorem to_hex_byte_odd_dropLast :
    ∀ l : List Nat, l.length % 2 = 1 → to_hex_byte l = to_hex_byte l.dropLast := by
  refine hexPairInduction ?_ ?_ ?_
  · intro h
    simp at h
  · intro a _
    rfl
  · intro a b l ih hlen
    have hlen2 : l.length % 2 = 1 := by
      simp only [List.length_cons] at hlen
      omega
    have hne : l ≠ [] := by
      intro hc
      rw [hc] at hlen2
      simp at hlen2
    rcases l with _ | ⟨c, l2⟩
    · exact absurd rfl hne
    have hdrop : (a :: b :: c :: l2).dropLast = a :: b :: (c :: l2).dropLast := by
      simp [List.dropLast]
    rw [hdrop]
    unfold to_hex_byte
    rcases HEX_MAP a with _ | hi
    · rfl
    rcases HEX_MAP b with _ | lo
    · rfl
    rw [ih hlen2]

/-- Decoded bytes, position by position: entry `i` of a successful decode
is the value of digit `2*i` as high nibble plus the value of digit
`2*i + 1`. -/
theorem to_hex_byte_ok_getD :
    ∀ l v : List Nat, to_hex_byte l = .ok v → ∀ i, i < v.length →
      v.getD i 0 = 16 * (HEX_MAP (l.getD (2 * i) 0)).getD 0 +
                   (HEX_MAP (l.getD (2 * i + 1) 0)).getD 0 := by
  refine hexPairInduction ?_ ?_ ?_
  · intro v h i hi
    unfold to_hex_byte at h
    injection h with h
    rw [← h] at hi
    simp at hi
  · intro a v h i hi
    unfold to_hex_byte at h
    injection h with h
    rw [← h] at hi
    simp at hi
  · intro a b l ih v h i hi
    unfold to_hex_byte at h
    rcases hha : HEX_MAP a with _ | hi2 <;> rw [hha] at h
    · exact absurd h (by simp)
    rcases hhb : HEX_MAP b with _ | lo2 <;> rw [hhb] at h
    · exact absurd h (by simp)
    rcases hr : to_hex_byte l with r | _ <;> rw [hr] at h
    · injection h with h
      subst h
      have hhi16 : hi2 < 16 := hexDigitValue_lt a hi2 (hexMap_eq_hexDigitValue a ▸ hha)
      have hlo16 : lo2 < 16 := hexDigitValue_lt b lo2 (hexMap_eq_hexDigitValue b ▸ hhb)
      rcases i with _ | j
      · simp only [List.getD_cons_zero, Nat.mul_zero, Nat.zero_add, List.getD_cons_succ]
        rw [hha, hhb]
        exact (nibble_merge hi2 lo2 hhi16 hlo16).1
      · have h2 : 2 * (j + 1) = 2 * j + 1 + 1 := by omega
        rw [h2]
        simp only [List.getD_cons_succ]
        exact ih r hr j (by simpa using hi)
    · exact absurd h (by simp)

/-- The hex encoder doubles the length. -/
theorem bytes_to_hex_length : ∀ l : List Nat, (bytes_to_hex l).length = 2 * l.length := by
  intro l
  induction l with
  | nil => rfl
  | cons x rest ih =>
      unfold bytes_to_hex
      rw [List.length_cons, List.length_cons, ih, List.length_cons]
      omega

/-- Shifting right by four is division by sixteen. -/
theorem shiftRight4_eq_div (x : Nat) : x >>> 4 = x / 16 := by
  rw [Nat.shiftRight_eq_div_pow]

/-- Masking with fifteen is the remainder modulo sixteen. -/
theorem and15_eq_mod (x : Nat) : x &&& 15 = x % 16 := by
  have h := Nat.and_pow_two_sub_one_eq_mod x 4
  norm_num at h
  exact h

/-- Table `LOOKUP_CHAR` followed by `HEX_MAP` is the identity on nibbles. -/
theorem hexMap_lookupChar : ∀ n, n < 16 → HEX_MAP (LOOKUP_CHAR.getD n 0) = some n := by
  decide

/-- Table `LOOKUP_CHAR` agrees with the spec's nibble-to-character map. -/
theorem lookupChar_eq_nibbleChar : ∀ n, n < 16 → LOOKUP_CHAR.getD n 0 = nibbleChar n := by
  decide

/-- A character is a lowercase ASCII hex digit. -/
def isLowerHexDigit (c : Nat) : Prop := (48 ≤ c ∧ c ≤ 57) ∨ (97 ≤ c ∧ c ≤ 102)

instance (c : Nat) : Decidable (isLowerHexDigit c) := by
  unfold isLowerHexDigit
  infer_instance

/-- Every `LOOKUP_CHAR` entry is a lowercase hex digit. -/
theorem lookupChar_lower : ∀ n, n < 16 → isLowerHexDigit (LOOKUP_CHAR.getD n 0) := by
  decide

/-- The high nibble of a byte. -/
theorem shiftRight4_lt (x : Nat) (h : x < 256) : x >>> 4 < 16 := by
  rw [shiftRight4_eq_div]
  omega

/-- The low nibble of a byte. -/
theorem and15_lt (x : Nat) : x &&& 15 < 16 := by
  rw [and15_eq_mod]
  omega

/-- Recombining a byte's nibbles gives back the byte. -/
theorem nibble_recombine (x : Nat) (h : x < 256) : (x >>> 4) <<< 4 ||| (x &&& 15) = x := by
  rw [(nibble_merge (x >>> 4) (x &&& 15) (shiftRight4_lt x h) (and15_lt x)).1,
      shiftRight4_eq_div, and15_eq_mod]
  omega

/-- Decoding an encoded byte string gives it back. -/
theorem to_hex_byte_bytes_to_hex :
    ∀ b : List Nat, (∀ x ∈ b, x < 256) → to_hex_byte (bytes_to_hex b) = .ok b := by
  intro b
  induction b with
  | nil => intro _; rfl
  | cons x rest ih =>
      intro hb
      have hx : x < 256 := hb x (by simp)
      unfold bytes_to_hex to_hex_byte
      rw [hexMap_lookupChar (x >>> 4) (shiftRight4_lt x hx),
          hexMap_lookupChar (x &&& 15) (and15_lt x),
          ih (fun y hy => hb y (by simp [hy]))]
      show RustOutcome.ok (((x >>> 4) <<< 4 ||| (x &&& 15)) :: rest) = RustOutcome.ok (x :: rest)
      rw [nibble_recombine x hx]

/-- The source encoder agrees with the spec encoder on byte strings. -/
theorem bytes_to_hex_eq_hexEncodeSpec :
    ∀ b : List Nat, (∀ x ∈ b, x < 256) → bytes_to_hex b = hexEncodeSpec b := by
  intro b
  induction b with
  | nil => intro _; rfl
  | cons x rest ih =>
      intro hb
      have hx : x < 256 := hb x (by simp)
      unfold bytes_to_hex hexEncodeSpec
      rw [lookupChar_eq_nibbleChar (x >>> 4) (shiftRight4_lt x hx),
          lookupChar_eq_nibbleChar (x &&& 15) (and15_lt x),
          shiftRight4_eq_div, and15_eq_mod,
          ih (fun y hy => hb y (by simp [hy]))]

/-- Every character the encoder emits is a lowercase hex digit. -/
theorem bytes_to_hex_lower :
    ∀ b : List Nat, (∀ x ∈ b, x < 256) → ∀ c ∈ bytes_to_hex b, isLowerHexDigit c := by
  intro b
  induction b with
  | nil => intro _ c hc; simp [bytes_to_hex] at hc
  | cons x rest ih =>
      intro hb c hc
      have hx : x < 256 := hb x (by simp)
      unfold bytes_to_hex at hc
      rcases List.mem_cons.mp hc with h | hc2
      · rw [h]
        exact lookupChar_lower (x >>> 4) (shiftRight4_lt x hx)
      rcases List.mem_cons.mp hc2 with h | hc3
      · rw [h]
        exact lookupChar_lower (x &&& 15) (and15_lt x)
      · exact ih (fun y hy => hb y (by simp [hy])) c hc3

/-! ### Lemmas about the XOR loop -/

/-- When the count is within both lengths, the XOR loop succeeds and
produces exactly the pointwise XOR of the first `n` entries. -/
theorem xor_between_password_ok :
    ∀ (n : Nat) (a b : List Nat), n ≤ a.length → n ≤ b.length →
      xor_between_password a b n =
        .ok ((List.range n).map fun i => a.getD i 0 ^^^ b.getD i 0) := by
  intro n
  induction n with
  | zero => intro a b _ _; rfl
  | succ m ih =>
      intro a b ha hb
      rcases a with _ | ⟨x, r1⟩
      · simp at ha
      rcases b with _ | ⟨y, r2⟩
      · simp at hb
      unfold xor_between_password
      rw [ih r1 r2 (by simpa using ha) (by simpa using hb)]
      simp [List.range_succ_eq_map, List.map_map, Function.comp,
            List.getD_cons_succ, List.getD_cons_zero]

/-- The XOR loop is symmetric in its two slices. -/
theorem xor_between_password_comm :
    ∀ (n : Nat) (a b : List Nat), xor_between_password a b n = xor_between_password b a n := by
  intro n
  induction n with
  | zero => intro a b; rfl
  | succ m ih =>
      intro a b
      rcases a with _ | ⟨x, r1⟩ <;> rcases b with _ | ⟨y, r2⟩ <;> try rfl
      unfold xor_between_password
      rw [ih r1 r2, Nat.xor_comm]

/-- XORing twice with the same second slice restores the first `n` bytes
of the original first slice. -/
theorem xor_between_password_involutive :
    ∀ (n : Nat) (a b c : List Nat), xor_between_password a b n = .ok c →
      xor_between_password c b n = .ok (a.take n) := by
  intro n
  induction n with
  | zero =>
      intro a b c h
      injection h with h
      rw [← h]
      rfl
  | succ m ih =>
      intro a b c h
      rcases a with _ | ⟨x, r1⟩
      · exact absurd h (by simp [xor_between_password])
      rcases b with _ | ⟨y, r2⟩
      · exact absurd h (by simp [xor_between_password])
      unfold xor_between_password at h
      rcases hr : xor_between_password r1 r2 m with r | _ <;> rw [hr] at h
      · injection h with h
        rw [← h]
        unfold xor_between_password
        rw [ih r1 r2 r hr]
        simp only [List.take_succ_cons, RustOutcome.ok.injEq]
        rw [Nat.xor_cancel_right]
      · exact absurd h (by simp)

/-! ### Lengths and byte bounds of the hash outputs -/

/-- Four big-endian bytes. -/
theorem be32_length (w : Nat) : (be32 w).length = 4 := rfl

/-- A SHA-256 digest is 32 bytes long. -/
theorem sha256_length (msg : List Nat) : (sha256 msg).length = 32 := rfl

/-- An HMAC-SHA256 tag is 32 bytes long. -/
theorem hmacSha256_length (key msg : List Nat) : (hmacSha256 key msg).length = 32 :=
  sha256_length _

/-- Masking with 255 yields a byte. -/
theorem and255_lt (y : Nat) : y &&& 255 < 256 := by
  have h := Nat.and_lt_two_pow y (show 255 < 2 ^ 8 by norm_num)
  norm_num at h
  exact h

/-- Big-endian serialisation produces bytes. -/
theorem be32_mem_lt (w : Nat) : ∀ x ∈ be32 w, x < 256 := by
  intro x hx
  simp only [be32, List.mem_cons, List.not_mem_nil, or_false] at hx
  rcases hx with h | h | h | h <;> (rw [h]; exact and255_lt _)

/-- Every byte of a SHA-256 digest is below 256. -/
theorem sha256_mem_lt (msg : List Nat) : ∀ x ∈ sha256 msg, x < 256 := by
  show ∀ x ∈ sha256Digest _, x < 256
  unfold sha256Digest
  simp only [List.forall_mem_append]
  exact ⟨⟨⟨⟨⟨⟨⟨be32_mem_lt _, be32_mem_lt _⟩, be32_mem_lt _⟩, be32_mem_lt _⟩,
    be32_mem_lt _⟩, be32_mem_lt _⟩, be32_mem_lt _⟩, be32_mem_lt _⟩

/-- Every byte of an HMAC-SHA256 tag is below 256. -/
theorem hmacSha256_mem_lt (key msg : List Nat) : ∀ x ∈ hmacSha256 key msg, x < 256 :=
  sha256_mem_lt _

/-! ### Claim theorems -/

/-- C3: decoding the hex encoding of any byte sequence returns it exactly;
every byte of the encoding is a lowercase hex digit (ASCII `0`-`9` or
`a`-`f`); and the encoding is twice as long as the input. -/
theorem hex_roundtrip_lower_length (b : List Nat) (hb : ∀ x ∈ b, x < 256) :
    to_hex_byte (bytes_to_hex b) = RustOutcome.ok b ∧
    (∀ c ∈ bytes_to_hex b, isLowerHexDigit c) ∧
    (bytes_to_hex b).length = 2 * b.length :=
  ⟨to_hex_byte_bytes_to_hex b hb, bytes_to_hex_lower b hb, bytes_to_hex_length b⟩

/-- Witness for C3 at the concrete byte string `[0, 171, 255]`. -/
theorem hex_roundtrip_lower_length_witness :
    to_hex_byte (bytes_to_hex [0, 171, 255]) = RustOutcome.ok [0, 171, 255] ∧
    (∀ c ∈ bytes_to_hex [0, 171, 255], isLowerHexDigit c) ∧
    (bytes_to_hex [0, 171, 255]).length = 2 * [0, 171, 255].length :=
  hex_roundtrip_lower_length [0, 171, 255] (by decide)

/-- C4: on an even-length input of valid hex digits (`0-9`, `A-F`, `a-f`),
decoding succeeds, the output is half as long as the input, and output
byte `i` is the value of digit `2*i` as high nibble plus the value of
digit `2*i + 1` as low nibble. -/
theorem to_hex_byte_even_valid_spec (l : List Nat)
    (hlen : l.length % 2 = 0) (hv : ∀ b ∈ l, (HEX_MAP b).isSome) :
    ∃ out, to_hex_byte l = RustOutcome.ok out ∧
      out.length = l.length / 2 ∧
      ∀ i, i < out.length →
        out.getD i 0 = 16 * (HEX_MAP (l.getD (2 * i) 0)).getD 0 +
                       (HEX_MAP (l.getD (2 * i + 1) 0)).getD 0 := by
  obtain ⟨v, _, hv2⟩ := to_hex_byte_eq_hexDecodeSpec l hlen hv
  exact ⟨v, hv2, to_hex_byte_ok_length l v hv2, to_hex_byte_ok_getD l v hv2⟩

/-- Witness for C4 at the concrete input `0fAa`. -/
theorem to_hex_byte_even_valid_spec_witness :
    ∃ out, to_hex_byte [48, 102, 65, 97] = RustOutcome.ok out ∧
      out.length = [48, 102, 65, 97].length / 2 ∧
      ∀ i, i < out.length →
        out.getD i 0 = 16 * (HEX_MAP ([48, 102, 65, 97].getD (2 * i) 0)).getD 0 +
                       (HEX_MAP ([48, 102, 65, 97].getD (2 * i + 1) 0)).getD 0 :=
  to_hex_byte_even_valid_spec [48, 102, 65, 97] (by decide) (by decide)

/-- C9: on an odd-length input of valid hex digits the decoder does not
fail: it ignores the trailing digit, returning exactly the decode of the
input without its last byte, with `length / 2` output bytes. -/
theorem to_hex_byte_odd_ignores_last (l : List Nat)
    (hodd : l.length % 2 = 1) (hv : ∀ b ∈ l, (HEX_MAP b).isSome) :
    to_hex_byte l = to_hex_byte l.dropLast ∧
    ∃ out, to_hex_byte l = RustOutcome.ok out ∧ out.length = l.length / 2 := by
  have hdrop := to_hex_byte_odd_dropLast l hodd
  have hlen2 : l.dropLast.length % 2 = 0 := by
    rw [List.length_dropLast]
    omega
  have hv2 : ∀ b ∈ l.dropLast, (HEX_MAP b).isSome :=
    fun b hb => hv b (List.dropLast_subset l hb)
  obtain ⟨v, _, hvok⟩ := to_hex_byte_eq_hexDecodeSpec l.dropLast hlen2 hv2
  refine ⟨hdrop, v, hdrop.trans hvok, ?_⟩
  have hl := to_hex_byte_ok_length l.dropLast v hvok
  rw [hl, List.length_dropLast]
  omega

/-- Witness for C9 at the concrete input `012`. -/
theorem to_hex_byte_odd_ignores_last_witness :
    to_hex_byte [48, 49, 50] = to_hex_byte [48, 49, 50].dropLast ∧
    ∃ out, to_hex_byte [48, 49, 50] = RustOutcome.ok out ∧
      out.length = [48, 49, 50].length / 2 :=
  to_hex_byte_odd_ignores_last [48, 49, 50] (by decide) (by decide)

/-- C10: for a count within both lengths, the XOR loop is commutative in
its two slices, and XORing its result with the second slice again returns
the first `n` bytes of the first slice. -/
theorem xor_comm_and_involutive (a b : List Nat) (n : Nat)
    (ha : n ≤ a.length) (hb : n ≤ b.length) :
    xor_between_password a b n = xor_between_password b a n ∧
    ∀ c, xor_between_password a b n = RustOutcome.ok c →
      xor_between_password c b n = RustOutcome.ok (a.take n) :=
  ⟨xor_between_password_comm n a b,
   fun c hc => xor_between_password_involutive n a b c hc⟩

/-- Witness for C10 at `a = [1, 2, 3]`, `b = [255, 0]`, `n = 2`. -/
theorem xor_comm_and_involutive_witness :
    xor_between_password [1, 2, 3] [255, 0] 2 = xor_between_password [255, 0] [1, 2, 3] 2 ∧
    xor_between_password [254, 2] [255, 0] 2 = RustOutcome.ok ([1, 2, 3].take 2) :=
  ⟨(xor_comm_and_involutive [1, 2, 3] [255, 0] 2 (by decide) (by decide)).1,
   (xor_comm_and_involutive [1, 2, 3] [255, 0] 2 (by decide) (by decide)).2 [254, 2] (by decide)⟩

/-- C5 counterexample: the input `00g` contains the byte 103 (`g`), which
is not a valid hex digit, yet decoding does not fail: the trailing byte is
never read and the call returns the decoded bytes of the leading `00`. -/
theorem to_hex_byte_invalid_trailing_succeeds :
    to_hex_byte [48, 48, 103] = RustOutcome.ok [0] := by decide

/-- C5 (amended): an invalid character at a position the decoder consumes
(an index below `2 * (length / 2)`) makes the call abort with no value
(the `unwrap` of the `HEX_MAP` lookup panics; there is no error value and
no substituted default); an invalid byte in a trailing odd position is
ignored instead. -/
theorem to_hex_byte_invalid_consumed_panics :
    ∀ (l : List Nat) (i : Nat), i < 2 * (l.length / 2) → HEX_MAP (l.getD i 0) = none →
      to_hex_byte l = RustOutcome.panicked := by
  refine hexPairInduction ?_ ?_ ?_
  · intro i hi _
    simp at hi
  · intro a i hi _
    simp only [List.length_cons, List.length_nil] at hi
    omega
  · intro a b l ih i hi hnone
    rcases i with _ | _ | j
    · simp only [List.getD_cons_zero] at hnone
      unfold to_hex_byte
      rw [hnone]
    · simp only [List.getD_cons_succ, List.getD_cons_zero] at hnone
      unfold to_hex_byte
      rcases HEX_MAP a with _ | hi2
      · rfl
      · rw [hnone]
    · simp only [List.getD_cons_succ] at hnone
      have hj : j < 2 * (l.length / 2) := by
        simp only [List.length_cons] at hi
        omega
      have hrec := ih j hj hnone
      unfold to_hex_byte
      rcases HEX_MAP a with _ | hi2
      · rfl
      rcases HEX_MAP b with _ | lo2
      · rfl
      rw [hrec]

/-- Witness for the amended C5 at the input `g0` (invalid first digit). -/
theorem to_hex_byte_invalid_consumed_panics_witness :
    to_hex_byte [103, 48] = RustOutcome.panicked :=
  to_hex_byte_invalid_consumed_panics [103, 48] 0 (by decide) (by decide)

/-- C6 counterexample: with a zero `server_iteration` the call panics
(`NonZeroU32::new(0).unwrap()`), producing no value at all — it is not
converted into an error value reported to the handshake step. -/
theorem rfc5802_zero_iteration_counterexample :
    rfc5802_algorithm [1, 2, 3, 4]
      ⟨List.replicate 64 49, List.replicate 8 51, 0⟩ = RustOutcome.panicked := by
  decide

/-- C6 (amended): for every password and body, a zero iteration count
makes `rfc5802_algorithm` abort with a panic — no value is produced and in
particular no silent default iteration count is used. -/
theorem rfc5802_zero_iteration_panics (password : List Nat)
    (body : AuthenticationSha256PasswordBody) (h : body.server_iteration = 0) :
    rfc5802_algorithm password body = RustOutcome.panicked := by
  unfold rfc5802_algorithm
  rcases hs : to_hex_byte body.random64code with s | _
  · simp [h]
  · rfl

/-- Witness for the amended C6 at a concrete password and body. -/
theorem rfc5802_zero_iteration_panics_witness :
    rfc5802_algorithm [] ⟨[48], [], 0⟩ = RustOutcome.panicked :=
  rfc5802_zero_iteration_panics [] ⟨[48], [], 0⟩ (by decide)

/-- C8: the response computation is deterministic and side-effect-free —
the embedding is a pure function, so two invocations on equal inputs
return byte-identical results. -/
theorem rfc5802_deterministic (p1 p2 : List Nat)
    (b1 b2 : AuthenticationSha256PasswordBody) (hp : p1 = p2) (hb : b1 = b2) :
    rfc5802_algorithm p1 b1 = rfc5802_algorithm p2 b2 := by
  rw [hp, hb]

/-- Witness for C8 at a concrete repeated invocation. -/
theorem rfc5802_deterministic_witness :
    rfc5802_algorithm [1] ⟨[], [], 1⟩ = rfc5802_algorithm [1] ⟨[], [], 1⟩ :=
  rfc5802_deterministic [1] [1] ⟨[], [], 1⟩ ⟨[], [], 1⟩ rfl rfl

set_option maxRecDepth 100000 in
set_option maxHeartbeats 8000000 in
/-- C2: the concrete regression vector of the source test
`test_rfc5802_algorithm` — password `[1,2,3,4]`, salt 64 copies of ASCII
`1`, token 8 copies of ASCII `3`, iteration count 1 — produces exactly the
ASCII bytes of `6308566b6ff5463d5bbcf7cbd95e2bf416a833994ea26d04d48f3b719d4b58fb`. -/
theorem rfc5802_test_vector :
    rfc5802_algorithm [1, 2, 3, 4]
      ⟨List.replicate 64 49, List.replicate 8 51, 1⟩ =
    RustOutcome.ok [54, 51, 48, 56, 53, 54, 54, 98, 54, 102, 102, 53, 52, 54, 51, 100,
      53, 98, 98, 99, 102, 55, 99, 98, 100, 57, 53, 101, 50, 98, 102, 52,
      49, 54, 97, 56, 51, 51, 57, 57, 52, 101, 97, 50, 54, 100, 48, 52,
      100, 52, 56, 102, 51, 98, 55, 49, 57, 100, 52, 98, 53, 56, 102, 98] := by
  decide

/-! ### The intermediate values of `rfc5802_algorithm`, named -/

/-- The `client_key` computed inside `rfc5802_algorithm` from the decoded
salt and the iteration count. -/
def rfc_client_key (password salt : List Nat) (iter : Nat) : List Nat :=
  get_key_from_hmac (pbkdf2HmacSha1 password salt iter 32) clientKeyMsg

/-- The `hmac_result` signature computed inside `rfc5802_algorithm`: the
HMAC-SHA256 tag of the decoded token under the `stored_key`. -/
def rfc_signature (password salt : List Nat) (iter : Nat) (tokenbyte : List Nat) : List Nat :=
  get_key_from_hmac (sha256 (rfc_client_key password salt iter)) tokenbyte

/-- An HMAC tag, viewed through `get_key_from_hmac`, is 32 bytes. -/
theorem get_key_from_hmac_length (key data : List Nat) :
    (get_key_from_hmac key data).length = 32 := hmacSha256_length key data

/-- Every byte of an HMAC tag is below 256. -/
theorem get_key_from_hmac_mem_lt (key data : List Nat) :
    ∀ x ∈ get_key_from_hmac key data, x < 256 := hmacSha256_mem_lt key data

/-- An in-range `getD` of a list of bytes is a byte. -/
theorem getD_lt_of_mem_lt (l : List Nat) (h256 : ∀ x ∈ l, x < 256) (i : Nat)
    (hi : i < l.length) : l.getD i 0 < 256 := by
  rw [List.getD_eq_getElem l 0 hi]
  exact h256 _ (List.getElem_mem hi)

/-- C7: inside `rfc5802_algorithm` the XOR step runs over the full
`client_key` length of 32 bytes — it succeeds, its output has length 32
with byte `i` equal to `signature[i] XOR client_key[i]` for every
`i < 32`, the function returns exactly the hex encoding of that output,
and the final result is 64 bytes long. -/
theorem rfc5802_xor_full_length (password : List Nat)
    (body : AuthenticationSha256PasswordBody) (salt tokenbyte : List Nat)
    (hs : to_hex_byte body.random64code = RustOutcome.ok salt)
    (hi : body.server_iteration ≠ 0)
    (ht : to_hex_byte body.token = RustOutcome.ok tokenbyte) :
    ∃ h, xor_between_password (rfc_signature password salt body.server_iteration tokenbyte)
        (rfc_client_key password salt body.server_iteration)
        (rfc_client_key password salt body.server_iteration).length = RustOutcome.ok h ∧
      (rfc_client_key password salt body.server_iteration).length = 32 ∧
      h.length = 32 ∧
      (∀ i, i < 32 → h.getD i 0 =
        (rfc_signature password salt body.server_iteration tokenbyte).getD i 0 ^^^
        (rfc_client_key password salt body.server_iteration).getD i 0) ∧
      rfc5802_algorithm password body = RustOutcome.ok (bytes_to_hex h) ∧
      (bytes_to_hex h).length = 64 := by
  unfold rfc_signature rfc_client_key
  have hck : (get_key_from_hmac (pbkdf2HmacSha1 password salt body.server_iteration 32)
      clientKeyMsg).length = 32 := get_key_from_hmac_length _ _
  have hsig : (get_key_from_hmac
      (sha256 (get_key_from_hmac (pbkdf2HmacSha1 password salt body.server_iteration 32)
        clientKeyMsg)) tokenbyte).length = 32 := get_key_from_hmac_length _ _
  have hxor := xor_between_password_ok
    (get_key_from_hmac (pbkdf2HmacSha1 password salt body.server_iteration 32)
      clientKeyMsg).length
    (get_key_from_hmac
      (sha256 (get_key_from_hmac (pbkdf2HmacSha1 password salt body.server_iteration 32)
        clientKeyMsg)) tokenbyte)
    (get_key_from_hmac (pbkdf2HmacSha1 password salt body.server_iteration 32) clientKeyMsg)
    (by rw [hck, hsig]) (le_refl _)
  refine ⟨_, hxor, hck, ?_, ?_, ?_, ?_⟩
  · simp [hck]
  · intro i hilt
    have hlt : i < ((List.range (get_key_from_hmac
        (pbkdf2HmacSha1 password salt body.server_iteration 32) clientKeyMsg).length).map
        (fun i => (get_key_from_hmac
          (sha256 (get_key_from_hmac (pbkdf2HmacSha1 password salt body.server_iteration 32)
            clientKeyMsg)) tokenbyte).getD i 0 ^^^
          (get_key_from_hmac (pbkdf2HmacSha1 password salt body.server_iteration 32)
            clientKeyMsg).getD i 0)).length := by
      simp [hck]
      omega
    rw [List.getD_eq_getElem _ 0 hlt, List.getElem_map, List.getElem_range]
  · unfold rfc5802_algorithm
    simp only [hs, ht, if_neg hi, get_key_from_hmac, hxor]
    simp only [get_key_from_hmac] at hxor
    rw [hxor]
  · rw [bytes_to_hex_length]
    simp [hck]

/-- Witness for C7 at a concrete password and body. -/
theorem rfc5802_xor_full_length_witness :
    ∃ h, xor_between_password (rfc_signature [] [0] 1 []) (rfc_client_key [] [0] 1)
        (rfc_client_key [] [0] 1).length = RustOutcome.ok h ∧
      (rfc_client_key [] [0] 1).length = 32 ∧
      h.length = 32 ∧
      (∀ i, i < 32 → h.getD i 0 =
        (rfc_signature [] [0] 1 []).getD i 0 ^^^ (rfc_client_key [] [0] 1).getD i 0) ∧
      rfc5802_algorithm [] ⟨[48, 48], [], 1⟩ = RustOutcome.ok (bytes_to_hex h) ∧
      (bytes_to_hex h).length = 64 :=
  rfc5802_xor_full_length [] ⟨[48, 48], [], 1⟩ [0] [] (by decide) (by decide) (by decide)

/-- C1: for every password, every 64-byte salt of valid ASCII hex digits,
every token of valid ASCII hex digits (even length, which covers both the
token shapes a real body can carry: the spec's 16 ASCII-hex chars and the
source test's fixed 8-byte array), and every non-zero iteration count,
`rfc5802_algorithm` returns exactly the value of the spec's pipeline:
hex-decode the salt, PBKDF2-HMAC-SHA1 to a 32-byte `salted_password`,
`client_key` = HMAC-SHA256 of `Client Key`, `stored_key` = SHA256 of
`client_key`, hex-decode the token, `signature` = HMAC-SHA256 of the
decoded token, XOR `signature` with `client_key` over the full 32 bytes,
and lowercase-hex-encode the result. -/
theorem rfc5802_matches_spec_pipeline (password s t : List Nat) (iter : Nat)
    (hs64 : s.length = 64) (hsv : ∀ b ∈ s, (HEX_MAP b).isSome)
    (hte : t.length % 2 = 0) (htv : ∀ b ∈ t, (HEX_MAP b).isSome)
    (hit : iter ≠ 0) :
    ∃ r, respondSpec password s t iter = some r ∧
      rfc5802_algorithm password ⟨s, t, iter⟩ = RustOutcome.ok r := by
  obtain ⟨vs, hvs1, hvs2⟩ := to_hex_byte_eq_hexDecodeSpec s (by omega) hsv
  obtain ⟨vt, hvt1, hvt2⟩ := to_hex_byte_eq_hexDecodeSpec t hte htv
  have hck : (hmacSha256 (pbkdf2HmacSha1 password vs iter 32) clientKeyMsg).length = 32 :=
    hmacSha256_length _ _
  have hsig : (hmacSha256 (sha256 (hmacSha256 (pbkdf2HmacSha1 password vs iter 32)
      clientKeyMsg)) vt).length = 32 := hmacSha256_length _ _
  have hxor := xor_between_password_ok
    (hmacSha256 (pbkdf2HmacSha1 password vs iter 32) clientKeyMsg).length
    (hmacSha256 (sha256 (hmacSha256 (pbkdf2HmacSha1 password vs iter 32) clientKeyMsg)) vt)
    (hmacSha256 (pbkdf2HmacSha1 password vs iter 32) clientKeyMsg)
    (by rw [hck, hsig]) (le_refl _)
  have hxored256 : ∀ x ∈ (List.range (hmacSha256 (pbkdf2HmacSha1 password vs iter 32)
      clientKeyMsg).length).map
      (fun i => (hmacSha256 (sha256 (hmacSha256 (pbkdf2HmacSha1 password vs iter 32)
          clientKeyMsg)) vt).getD i 0 ^^^
        (hmacSha256 (pbkdf2HmacSha1 password vs iter 32) clientKeyMsg).getD i 0),
      x < 256 := by
    intro x hx
    rw [List.mem_map] at hx
    obtain ⟨i, hin, hxeq⟩ := hx
    rw [List.mem_range] at hin
    rw [← hxeq]
    have h1 : (hmacSha256 (sha256 (hmacSha256 (pbkdf2HmacSha1 password vs iter 32)
        clientKeyMsg)) vt).getD i 0 < 256 :=
      getD_lt_of_mem_lt _ (hmacSha256_mem_lt _ _) i (by rw [hsig]; rw [hck] at hin; omega)
    have h2 : (hmacSha256 (pbkdf2HmacSha1 password vs iter 32) clientKeyMsg).getD i 0 < 256 :=
      getD_lt_of_mem_lt _ (hmacSha256_mem_lt _ _) i hin
    have h256 : (256 : Nat) = 2 ^ 8 := by norm_num
    have hx8 := Nat.xor_lt_two_pow (h256 ▸ h1) (h256 ▸ h2)
    exact h256 ▸ hx8
  refine ⟨hexEncodeSpec ((List.range (hmacSha256 (pbkdf2HmacSha1 password vs iter 32)
      clientKeyMsg).length).map
      (fun i => (hmacSha256 (sha256 (hmacSha256 (pbkdf2HmacSha1 password vs iter 32)
          clientKeyMsg)) vt).getD i 0 ^^^
        (hmacSha256 (pbkdf2HmacSha1 password vs iter 32) clientKeyMsg).getD i 0)),
    ?_, ?_⟩
  · unfold respondSpec
    simp only [hvs1, hvt1, if_neg hit]
  · unfold rfc5802_algorithm
    simp only [hvs2, hvt2, if_neg hit, get_key_from_hmac]
    simp only [hxor]
    rw [bytes_to_hex_eq_hexEncodeSpec _ hxored256]

/-- Witness for C1 at the realizable body of the source test: password
`[1,2,3,4]`, salt 64 copies of ASCII `1`, token 8 copies of ASCII `3`,
iteration count 1. -/
theorem rfc5802_matches_spec_pipeline_witness :
    ∃ r, respondSpec [1, 2, 3, 4] (List.replicate 64 49) (List.replicate 8 51) 1 = some r ∧
      rfc5802_algorithm [1, 2, 3, 4] ⟨List.replicate 64 49, List.replicate 8 51, 1⟩ =
        RustOutcome.ok r :=
  rfc5802_matches_spec_pipeline [1, 2, 3, 4] (List.replicate 64 49) (List.replicate 8 51) 1
    (by decide) (by decide) (by decide) (by decide) (by decide)

end Sha256Auth
